import Mathlib

/-
Verification development for the diffusion scheduler in
src/diffusers/schedulers/scheduling_discrete.py (class DiscreteScheduler).
The numeric arrays of the Python/numpy code are modelled as lists of real
numbers; numpy scalar and fancy indexing (including negative-index wrapping
and IndexError), elementwise broadcasting (ValueError on incompatible
shapes) and the error taxonomy of the specification are modelled explicitly.
-/

set_option autoImplicit false

namespace DiffusersSched

/-- Error kinds of the scheduler interface, using the specification's
taxonomy names. `TypeError` models the Python `TypeError` raised when
arithmetic is attempted on `None`; `IndexOutOfRange` models numpy
`IndexError`; `InvalidArgument` models numpy shape `ValueError`;
`UnsupportedConfiguration` models `NotImplementedError`. -/
inductive SchedError where
  | UnsupportedConfiguration
  | IndexOutOfRange
  | InvalidArgument
  | TypeError
deriving DecidableEq

/-- The `beta_schedule` configuration values of `DiscreteScheduler.__init__`;
`unknownSchedule` stands for any string other than the three recognized ones. -/
inductive BetaSchedule where
  | linear
  | scaledLinear
  | trained
  | unknownSchedule
deriving DecidableEq

/-- The `variance_type` configuration values of `DiscreteScheduler.__init__`;
`none` is the Python `None` default, `unknownVariance` any other value. -/
inductive VarianceType where
  | fixedSmall
  | fixedLarge
  | none
  | unknownVariance
deriving DecidableEq

/-- The construction parameters of `DiscreteScheduler.__init__`
(the abstract `tensor_format` switch is out of scope per the spec). -/
structure ScheduleConfig where
  num_timesteps : Nat
  beta_min : ℝ
  beta_max : ℝ
  beta_schedule : BetaSchedule
  clip_clean_sample : Bool
  variance_type : VarianceType

/-- The coefficient tables and flags a successfully constructed
`DiscreteScheduler` instance holds. -/
structure DiscreteScheduler where
  betas : List ℝ
  alphas : List ℝ
  alphas_cumprod : List ℝ
  variance : List ℝ
  clip_sample : Bool
  num_timesteps : Nat

noncomputable section

/-- Model of `np.linspace a b n`: `n` samples from `a` to `b` inclusive, at real
precision. For `n = 1` the step term vanishes (index `0` times anything),
matching numpy's single-sample result `[a]`. -/
def linspace (a b : ℝ) (n : Nat) : List ℝ :=
  (List.range n).map (fun i : Nat => a + (i : ℝ) * ((b - a) / ((n : ℝ) - 1)))

/-- Running-product worker: `cumprodGo acc l` maps each prefix of `l`
to `acc` times the product of that prefix. -/
def cumprodGo (acc : ℝ) : List ℝ → List ℝ
  | [] => []
  | x :: xs => (acc * x) :: cumprodGo (acc * x) xs

/-- Model of `np.cumprod`: running product in index order. -/
def cumprod (l : List ℝ) : List ℝ := cumprodGo 1 l

/-- The `fixed_small` variance table exactly as the source builds it:
`alphas_cumprod_prev = np.concatenate(([1], alphas_cumprod[1:]))` followed by
`np.sqrt((1 - alphas_cumprod_prev) / (1 - alphas_cumprod) * betas)`. -/
def fixed_small_variance (betas alphas_cumprod : List ℝ) : List ℝ :=
  let alphas_cumprod_prev := 1 :: alphas_cumprod.drop 1
  List.map Real.sqrt
    (List.zipWith (fun q b => q * b)
      (List.zipWith (fun p a => (1 - p) / (1 - a)) alphas_cumprod_prev alphas_cumprod)
      betas)

/-- Construction per `DiscreteScheduler.__init__`: builds betas per `beta_schedule`, then
`alphas = 1.0 - betas` (a Python `TypeError` when betas is `None`, i.e. the
`trained` branch), then `alphas_cumprod = np.cumprod(alphas)`, then the
variance table per `variance_type`. -/
def mkScheduler (cfg : ScheduleConfig) : Except SchedError DiscreteScheduler := do
  let betasOpt : Option (List ℝ) ←
    match cfg.beta_schedule with
    | .linear =>
        Except.ok (some (linspace cfg.beta_min cfg.beta_max cfg.num_timesteps))
    | .scaledLinear =>
        Except.ok (some ((linspace (Real.sqrt cfg.beta_min) (Real.sqrt cfg.beta_max)
          cfg.num_timesteps).map (fun x => x ^ 2)))
    | .trained => Except.ok Option.none
    | .unknownSchedule => Except.error SchedError.UnsupportedConfiguration
  let betas ←
    match betasOpt with
    | some bs => Except.ok bs
    | none => Except.error SchedError.TypeError
  let alphas := betas.map (fun b => 1 - b)
  let alphas_cumprod := cumprod alphas
  let variance ←
    match cfg.variance_type with
    | .fixedSmall => Except.ok (fixed_small_variance betas alphas_cumprod)
    | .fixedLarge => Except.ok (betas.map Real.sqrt)
    | .none => Except.ok (List.replicate cfg.num_timesteps (0 : ℝ))
    | .unknownVariance => Except.error SchedError.UnsupportedConfiguration
  Except.ok (DiscreteScheduler.mk betas alphas alphas_cumprod variance
    cfg.clip_clean_sample cfg.num_timesteps)

/-- numpy scalar indexing on a one-dimensional array: indices in
`[-len, len)` are valid, negative ones wrap to `len + t`, anything else
raises `IndexError`. -/
def pyIndex (l : List ℝ) (t : Int) : Except SchedError ℝ :=
  let i := if t < 0 then t + l.length else t
  if 0 ≤ i ∧ i < l.length then Except.ok (l.getD i.toNat 0)
  else Except.error SchedError.IndexOutOfRange

/-- Total companion of `pyIndex`: the value returned on valid indices. -/
def pyGetD (l : List ℝ) (t : Int) : ℝ :=
  if t < 0 then l.getD (t + l.length).toNat 0 else l.getD t.toNat 0

/-- numpy fancy indexing `l[ts]` with a list of integer indices. -/
def pyFancyIndex (l : List ℝ) : List Int → Except SchedError (List ℝ)
  | [] => Except.ok []
  | t :: ts => do Except.ok ((← pyIndex l t) :: (← pyFancyIndex l ts))

/-- numpy elementwise binary operation on one-dimensional arrays:
equal lengths operate pointwise, a length-one side broadcasts, and any
other length mismatch raises a shape `ValueError` (`InvalidArgument`). -/
def ewise2 (f : ℝ → ℝ → ℝ) (a b : List ℝ) : Except SchedError (List ℝ) :=
  if a.length = b.length then Except.ok (List.zipWith f a b)
  else if a.length = 1 then Except.ok (b.map (f (a.headD 0)))
  else if b.length = 1 then Except.ok (a.map (fun x => f x (b.headD 0)))
  else Except.error SchedError.InvalidArgument

/-- Row-wise monadic zip used by the two-dimensional broadcast (only called
with equal outer lengths). -/
def zipWithE (f : List ℝ → List ℝ → Except SchedError (List ℝ)) :
    List (List ℝ) → List (List ℝ) → Except SchedError (List (List ℝ))
  | a :: as, b :: bs => do Except.ok ((← f a b) :: (← zipWithE f as bs))
  | _, _ => Except.ok []

/-- Row-wise monadic map used by the two-dimensional broadcast. -/
def mapE (f : List ℝ → Except SchedError (List ℝ)) :
    List (List ℝ) → Except SchedError (List (List ℝ))
  | [] => Except.ok []
  | a :: as => do Except.ok ((← f a) :: (← mapE f as))

/-- numpy elementwise binary operation on two-dimensional arrays: the outer
(batch) dimension follows the same equal-or-one broadcast rule as `ewise2`,
rows combine through `ewise2`. -/
def bop2d (f : ℝ → ℝ → ℝ) (A B : List (List ℝ)) :
    Except SchedError (List (List ℝ)) :=
  if A.length = B.length then zipWithE (ewise2 f) A B
  else if A.length = 1 then mapE (ewise2 f (A.headD [])) B
  else if B.length = 1 then mapE (fun r => ewise2 f r (B.headD [])) A
  else Except.error SchedError.InvalidArgument

/-- Elementwise unary map over a two-dimensional array. -/
def map2d (f : ℝ → ℝ) (A : List (List ℝ)) : List (List ℝ) := A.map (List.map f)

/-- Modelled from the spec: the mixin's elementwise `clip` helper
(`scheduling_utils.py` is not under src/) clamps a value to `[lo, hi]`,
as `np.clip` does: lower bound first, then upper bound. -/
def npClip (lo hi x : ℝ) : ℝ := min hi (max lo x)

/-- Modelled from the spec: the mixin's `match_shape` helper
(`scheduling_utils.py` is not under src/) reshapes the per-batch vector of
coefficients so that it broadcasts over the trailing dimensions of the
target array, i.e. to a column of one-element rows in this 2-d model. -/
def match_shape (values : List ℝ) (_broadcast_array : List (List ℝ)) :
    List (List ℝ) :=
  values.map (fun v => [v])

/-- Model of `DiscreteScheduler.step`, translated statement by statement: table
lookups at `t`, the predicted clean sample with optional clipping, the two
interpolation coefficients, their combination, and the stochastic term
added only when `t > 0` and `noise` is present. The mixin's elementwise
`self.sqrt` is the real square root. -/
def step (sched : DiscreteScheduler) (noise_prediction noisy_sample : List ℝ)
    (t : Int) (noise : Option (List ℝ)) : Except SchedError (List ℝ) := do
  let alpha ← pyIndex sched.alphas t
  let beta ← pyIndex sched.betas t
  let alpha_cumprod ← pyIndex sched.alphas_cumprod t
  let alpha_cumprod_next ←
    if 0 < t then pyIndex sched.alphas_cumprod (t - 1) else Except.ok 1
  let scaled := noise_prediction.map (fun x => Real.sqrt (1 - alpha_cumprod) * x)
  let diff ← ewise2 (fun x y => x - y) noisy_sample scaled
  let pred_clean0 := diff.map (fun x => x / Real.sqrt alpha_cumprod)
  let pred_clean :=
    if sched.clip_sample then pred_clean0.map (npClip (-1) 1) else pred_clean0
  let clean_sample_coeff := Real.sqrt alpha_cumprod_next * beta / (1 - alpha_cumprod)
  let noisy_sample_coeff := Real.sqrt alpha * (1 - alpha_cumprod_next) / (1 - alpha_cumprod)
  let next_sample ← ewise2 (fun x y => x + y)
    (pred_clean.map (fun x => clean_sample_coeff * x))
    (noisy_sample.map (fun x => noisy_sample_coeff * x))
  if 0 < t then
    match noise with
    | some z => do
        let v ← pyIndex sched.variance t
        ewise2 (fun x y => x + y) next_sample (z.map (fun x => v * x))
    | none => Except.ok next_sample
  else Except.ok next_sample

/-- Model of `DiscreteScheduler.add_noise`: fancy-index `alphas_cumprod` at the
timesteps, reshape for broadcast, and mix
`sqrt(ac) * clean + sqrt(1 - ac) * noise`. -/
def add_noise (sched : DiscreteScheduler) (clean_samples noise : List (List ℝ))
    (timesteps : List Int) : Except SchedError (List (List ℝ)) := do
  let acs ← pyFancyIndex sched.alphas_cumprod timesteps
  let acM := match_shape acs clean_samples
  let p1 ← bop2d (fun x y => x * y) (map2d Real.sqrt acM) clean_samples
  let p2 ← bop2d (fun x y => x * y)
    (map2d Real.sqrt (map2d (fun a => 1 - a) acM)) noise
  bop2d (fun x y => x + y) p1 p2

end

@[simp] theorem except_bind_ok {α β : Type} (x : α) (f : α → Except SchedError β) :
    (Except.ok x >>= f) = f x := rfl

@[simp] theorem except_bind_error {α β : Type} (e : SchedError) (f : α → Except SchedError β) :
    ((Except.error e : Except SchedError α) >>= f) = Except.error e := rfl

@[simp] theorem linspace_length (a b : ℝ) (n : Nat) : (linspace a b n).length = n := by
  unfold linspace
  rw [List.length_map, List.length_range]

theorem linspace_getD (a b : ℝ) (n i : Nat) (h : i < n) :
    (linspace a b n).getD i 0 = a + (i : ℝ) * ((b - a) / ((n : ℝ) - 1)) := by
  unfold linspace
  rw [List.getD_eq_getElem?_getD, List.getElem?_map, List.getElem?_range h]
  rfl

@[simp] theorem cumprodGo_length (acc : ℝ) (l : List ℝ) :
    (cumprodGo acc l).length = l.length := by
  induction l generalizing acc with
  | nil => rfl
  | cons x xs ih => simp [cumprodGo, ih]

@[simp] theorem cumprod_length (l : List ℝ) : (cumprod l).length = l.length := by
  simp [cumprod]

theorem cumprodGo_getD_zero (acc x : ℝ) (xs : List ℝ) :
    (cumprodGo acc (x :: xs)).getD 0 0 = acc * x := rfl

theorem cumprodGo_getD_succ (l : List ℝ) (acc : ℝ) (i : Nat) (h : i + 1 < l.length) :
    (cumprodGo acc l).getD (i + 1) 0 =
      (cumprodGo acc l).getD i 0 * l.getD (i + 1) 0 := by
  induction l generalizing acc i with
  | nil => simp at h
  | cons x xs ih =>
    cases i with
    | zero =>
      cases xs with
      | nil => simp at h
      | cons y ys => simp [cumprodGo, cumprodGo_getD_zero]
    | succ k =>
      have hk : k + 1 < xs.length := by simpa using h
      simpa [cumprodGo] using ih (acc * x) k hk

theorem cumprod_getD_succ (l : List ℝ) (i : Nat) (h : i + 1 < l.length) :
    (cumprod l).getD (i + 1) 0 = (cumprod l).getD i 0 * l.getD (i + 1) 0 :=
  cumprodGo_getD_succ l 1 i h

theorem cumprodGo_getD_pos (l : List ℝ) (acc : ℝ) (hacc : 0 < acc)
    (hl : ∀ x ∈ l, 0 < x) (i : Nat) (h : i < l.length) :
    0 < (cumprodGo acc l).getD i 0 := by
  induction l generalizing acc i with
  | nil => simp at h
  | cons x xs ih =>
    have hx : 0 < x := hl x (by simp)
    cases i with
    | zero => simpa [cumprodGo] using mul_pos hacc hx
    | succ k =>
      have hk : k < xs.length := by simpa using h
      simpa [cumprodGo] using
        ih (acc * x) (mul_pos hacc hx) (fun y hy => hl y (by simp [hy])) k hk

theorem cumprodGo_getD_lt_one (l : List ℝ) (acc : ℝ) (hacc0 : 0 < acc)
    (hacc1 : acc ≤ 1) (hl : ∀ x ∈ l, 0 < x ∧ x < 1) (i : Nat) (h : i < l.length) :
    (cumprodGo acc l).getD i 0 < 1 := by
  induction l generalizing acc i with
  | nil => simp at h
  | cons x xs ih =>
    have hx := hl x (by simp)
    have haccx : acc * x ≤ x := mul_le_of_le_one_left (le_of_lt hx.1) hacc1
    cases i with
    | zero => simpa [cumprodGo] using lt_of_le_of_lt haccx hx.2
    | succ k =>
      have hk : k < xs.length := by simpa using h
      have haccx0 : 0 < acc * x := mul_pos hacc0 hx.1
      have haccx1 : acc * x ≤ 1 := le_of_lt (lt_of_le_of_lt haccx hx.2)
      simpa [cumprodGo] using
        ih (acc * x) haccx0 haccx1 (fun y hy => hl y (by simp [hy])) k hk

theorem pyIndex_ok_nonneg (l : List ℝ) (t : Int) (h0 : 0 ≤ t) (h1 : t < l.length) :
    pyIndex l t = Except.ok (l.getD t.toNat 0) := by
  have hneg : ¬ t < 0 := not_lt.mpr h0
  simp [pyIndex, hneg, h0, h1]

theorem pyIndex_ok_neg (l : List ℝ) (t : Int) (h0 : -(l.length : Int) ≤ t) (h1 : t < 0) :
    pyIndex l t = Except.ok (l.getD (t + l.length).toNat 0) := by
  have h2 : 0 ≤ t + (l.length : Int) := by omega
  have h3 : t + (l.length : Int) < l.length := by omega
  simp [pyIndex, h1, h2, h3]

theorem pyIndex_error (l : List ℝ) (t : Int)
    (h : t < -(l.length : Int) ∨ (l.length : Int) ≤ t) :
    pyIndex l t = Except.error SchedError.IndexOutOfRange := by
  rcases h with h | h
  · have h1 : t < 0 := by omega
    have h2 : ¬ (0 ≤ t + (l.length : Int)) := by omega
    simp [pyIndex, h1, h2]
  · have h1 : ¬ t < 0 := by omega
    have h2 : ¬ (0 ≤ t ∧ t < (l.length : Int)) := by omega
    simp [pyIndex, h1, h2]

theorem ewise2_eq_zipWith (f : ℝ → ℝ → ℝ) (a b : List ℝ) (h : a.length = b.length) :
    ewise2 f a b = Except.ok (List.zipWith f a b) := by
  simp [ewise2, h]

theorem ewise2_single (f : ℝ → ℝ → ℝ) (s : ℝ) (b : List ℝ) :
    ewise2 f [s] b = Except.ok (b.map (f s)) := by
  match b with
  | [] => rfl
  | [y] => rfl
  | y1 :: y2 :: ys =>
    have h1 : ¬ ([s].length = (y1 :: y2 :: ys).length) := by simp
    simp [ewise2, h1]

theorem ewise2_error (f : ℝ → ℝ → ℝ) (a b : List ℝ) (ha : a.length ≠ b.length)
    (ha1 : a.length ≠ 1) (hb1 : b.length ≠ 1) :
    ewise2 f a b = Except.error SchedError.InvalidArgument := by
  simp [ewise2, ha, ha1, hb1]

theorem zipWithE_col (f : ℝ → ℝ → ℝ) (ss : List ℝ) (B : List (List ℝ))
    (h : ss.length = B.length) :
    zipWithE (ewise2 f) (ss.map (fun s => [s])) B =
      Except.ok (List.zipWith (fun s row => row.map (f s)) ss B) := by
  induction ss generalizing B with
  | nil =>
    cases B with
    | nil => rfl
    | cons b bs => simp at h
  | cons s ss ih =>
    cases B with
    | nil => simp at h
    | cons b bs =>
      have hlen : ss.length = bs.length := by simpa using h
      simp [zipWithE, ewise2_single, ih bs hlen]

theorem zipWithE_rows (f : ℝ → ℝ → ℝ) (A B : List (List ℝ))
    (h : List.Forall₂ (fun a b : List ℝ => a.length = b.length) A B) :
    zipWithE (ewise2 f) A B = Except.ok (List.zipWith (List.zipWith f) A B) := by
  induction h with
  | nil => rfl
  | cons hab htail ih => simp [zipWithE, ewise2_eq_zipWith _ _ _ hab, ih]

theorem bop2d_eq_zipWithE (f : ℝ → ℝ → ℝ) (A B : List (List ℝ))
    (h : A.length = B.length) : bop2d f A B = zipWithE (ewise2 f) A B := by
  simp [bop2d, h]

theorem bop2d_col (f : ℝ → ℝ → ℝ) (ss : List ℝ) (B : List (List ℝ))
    (h : ss.length = B.length) :
    bop2d f (ss.map (fun s => [s])) B =
      Except.ok (List.zipWith (fun s row => row.map (f s)) ss B) := by
  rw [bop2d_eq_zipWithE _ _ _ (by simpa using h)]
  exact zipWithE_col f ss B h

theorem pyFancyIndex_ok (l : List ℝ) (ts : List Int)
    (h : ∀ t ∈ ts, 0 ≤ t ∧ t < (l.length : Int)) :
    pyFancyIndex l ts = Except.ok (ts.map (fun t => l.getD t.toNat 0)) := by
  induction ts with
  | nil => rfl
  | cons t ts ih =>
    have ht := h t (by simp)
    have htail : ∀ u ∈ ts, 0 ≤ u ∧ u < (l.length : Int) :=
      fun u hu => h u (by simp [hu])
    simp [pyFancyIndex, pyIndex_ok_nonneg l t ht.1 ht.2, ih htail]

theorem map2d_match_shape (g : ℝ → ℝ) (vs : List ℝ) (X : List (List ℝ)) :
    map2d g (match_shape vs X) = vs.map (fun v => [g v]) := by
  simp [map2d, match_shape, List.map_map, Function.comp]

theorem mkScheduler_linear (cfg : ScheduleConfig) (hs : cfg.beta_schedule = .linear)
    (sched : DiscreteScheduler) (h : mkScheduler cfg = Except.ok sched) :
    sched.betas = linspace cfg.beta_min cfg.beta_max cfg.num_timesteps ∧
      sched.alphas = sched.betas.map (fun b => 1 - b) ∧
      sched.alphas_cumprod = cumprod sched.alphas ∧
      sched.clip_sample = cfg.clip_clean_sample ∧
      sched.num_timesteps = cfg.num_timesteps := by
  cases cfg with
  | mk n bmin bmax bs clip vt =>
    cases hs
    cases vt <;> simp [mkScheduler] at h <;> cases h <;> simp

theorem mkScheduler_alphas (cfg : ScheduleConfig) (sched : DiscreteScheduler)
    (h : mkScheduler cfg = Except.ok sched) :
    sched.alphas = sched.betas.map (fun b => 1 - b) ∧
      sched.alphas_cumprod = cumprod sched.alphas := by
  cases cfg with
  | mk n bmin bmax bs clip vt =>
    cases bs <;> cases vt <;> simp [mkScheduler] at h <;> cases h <;> simp

theorem fixed_small_variance_length (betas ac : List ℝ) (h : ac.length = betas.length) :
    (fixed_small_variance betas ac).length = betas.length := by
  simp only [fixed_small_variance, List.length_map, List.length_zipWith,
    List.length_cons, List.length_drop, h]
  omega

theorem mkScheduler_table_lengths (cfg : ScheduleConfig) (sched : DiscreteScheduler)
    (h : mkScheduler cfg = Except.ok sched) :
    sched.betas.length = cfg.num_timesteps ∧
      sched.alphas.length = cfg.num_timesteps ∧
      sched.alphas_cumprod.length = cfg.num_timesteps ∧
      sched.variance.length = cfg.num_timesteps ∧
      sched.num_timesteps = cfg.num_timesteps := by
  cases cfg with
  | mk n bmin bmax bs clip vt =>
    cases bs <;> cases vt <;> simp [mkScheduler] at h <;> cases h <;>
      simp [fixed_small_variance_length]

noncomputable section

/-- Total companion of `step` on valid inputs: the same computation with
`pyGetD` in place of the fallible `pyIndex` and plain `zipWith` in place of
the broadcasting `ewise2`. -/
def step_run (sched : DiscreteScheduler) (p s : List ℝ) (t : Int)
    (noise : Option (List ℝ)) : List ℝ :=
  let alpha := pyGetD sched.alphas t
  let beta := pyGetD sched.betas t
  let ac := pyGetD sched.alphas_cumprod t
  let acn := if 0 < t then pyGetD sched.alphas_cumprod (t - 1) else 1
  let scaled := p.map (fun x => Real.sqrt (1 - ac) * x)
  let diff := List.zipWith (fun x y => x - y) s scaled
  let pred_clean0 := diff.map (fun x => x / Real.sqrt ac)
  let pred_clean :=
    if sched.clip_sample then pred_clean0.map (npClip (-1) 1) else pred_clean0
  let cc := Real.sqrt acn * beta / (1 - ac)
  let nc := Real.sqrt alpha * (1 - acn) / (1 - ac)
  let next := List.zipWith (fun x y => x + y)
    (pred_clean.map (fun x => cc * x)) (s.map (fun x => nc * x))
  match noise with
  | some z =>
      if 0 < t then
        List.zipWith (fun x y => x + y) next
          (z.map (fun x => pyGetD sched.variance t * x))
      else next
  | none => next

/-- Written from the spec's words (section 4.2): the reverse step at a
timestep `t` in `[0, numTimesteps)` is
`cleanCoeff * predClean + noisyCoeff * noisySample`, plus the stochastic
term only when `t > 0` and noise is present, with
`predClean = (noisySample - sqrt(1 - alphaCumprod) * noisePrediction) / sqrt(alphaCumprod)`
clamped to `[-1, 1]` when clipping is enabled,
`alphaCumprodNext = alphasCumprod[t-1]` if `t > 0` else `1`,
`cleanCoeff = sqrt(alphaCumprodNext) * beta / (1 - alphaCumprod)` and
`noisyCoeff = sqrt(alpha) * (1 - alphaCumprodNext) / (1 - alphaCumprod)`. -/
def step_spec (sched : DiscreteScheduler) (p s : List ℝ) (t : Nat)
    (noise : Option (List ℝ)) : List ℝ :=
  let alpha := sched.alphas.getD t 0
  let beta := sched.betas.getD t 0
  let ac := sched.alphas_cumprod.getD t 0
  let acn := if 0 < t then sched.alphas_cumprod.getD (t - 1) 0 else 1
  let pred_clean0 :=
    List.zipWith (fun x y => (x - Real.sqrt (1 - ac) * y) / Real.sqrt ac) s p
  let pred_clean :=
    if sched.clip_sample then pred_clean0.map (npClip (-1) 1) else pred_clean0
  let cleanCoeff := Real.sqrt acn * beta / (1 - ac)
  let noisyCoeff := Real.sqrt alpha * (1 - acn) / (1 - ac)
  let base := List.zipWith (fun x y => cleanCoeff * x + noisyCoeff * y) pred_clean s
  match noise with
  | some z =>
      if 0 < t then
        List.zipWith (fun x y => x + y) base
          (z.map (fun x => sched.variance.getD t 0 * x))
      else base
  | none => base

/-- Three-way zip used to state the forward-noising contract per batch row. -/
def zipWith3S (f : Int → List ℝ → List ℝ → List ℝ) :
    List Int → List (List ℝ) → List (List ℝ) → List (List ℝ)
  | t :: ts, c :: cs, e :: es => f t c e :: zipWith3S f ts cs es
  | _, _, _ => []

/-- Written from the spec's words (section 4.3): for each batch element `b`
with `ac = alphasCumprod[timesteps[b]]`,
`noisySamples[b] = sqrt(ac) * cleanSamples[b] + sqrt(1 - ac) * noise[b]`,
with `ac` broadcast over the trailing dimensions. -/
def add_noise_spec (sched : DiscreteScheduler) (clean noise : List (List ℝ))
    (ts : List Int) : List (List ℝ) :=
  zipWith3S (fun t c e =>
    let ac := sched.alphas_cumprod.getD t.toNat 0
    List.zipWith (fun x y => Real.sqrt ac * x + Real.sqrt (1 - ac) * y) c e)
    ts clean noise

/-- The `trained` construction call with the source's default hyperparameters. -/
def cfgTrained : ScheduleConfig :=
  ScheduleConfig.mk 1000 (1/10000) (1/50) BetaSchedule.trained true VarianceType.none

/-- A concrete two-timestep linear `fixed_small` configuration. -/
def cfgFS : ScheduleConfig :=
  ScheduleConfig.mk 2 (1/4) (1/2) BetaSchedule.linear true VarianceType.fixedSmall

/-- The scheduler the source constructs from `cfgFS`. -/
def schedFS : DiscreteScheduler :=
  DiscreteScheduler.mk [1/4, 1/2] [3/4, 1/2] [3/4, 3/8] [0, Real.sqrt (1/2)] true 2

/-- A one-timestep linear configuration. -/
def cfg1 : ScheduleConfig :=
  ScheduleConfig.mk 1 (1/10) (1/5) BetaSchedule.linear true VarianceType.none

/-- The scheduler the source constructs from `cfg1`. -/
def sched1 : DiscreteScheduler :=
  DiscreteScheduler.mk [1/10] [9/10] [9/10] [0] true 1

end

theorem pyIndex_ok (l : List ℝ) (t : Int) (h0 : -(l.length : Int) ≤ t)
    (h1 : t < l.length) : pyIndex l t = Except.ok (pyGetD l t) := by
  by_cases ht : t < 0
  · rw [pyIndex_ok_neg l t h0 ht]
    simp [pyGetD, ht]
  · rw [pyIndex_ok_nonneg l t (not_lt.mp ht) h1]
    simp [pyGetD, ht]

theorem getD_map_lt (f : ℝ → ℝ) (l : List ℝ) (i : Nat) (h : i < l.length) :
    (l.map f).getD i 0 = f (l.getD i 0) := by
  rw [List.getD_eq_getElem?_getD, List.getElem?_map, List.getElem?_eq_getElem h,
    List.getD_eq_getElem?_getD, List.getElem?_eq_getElem h]
  rfl

theorem mk_cfgFS : mkScheduler cfgFS = Except.ok schedFS := by
  simp only [mkScheduler, cfgFS, schedFS, linspace, cumprod,
    fixed_small_variance, List.range_succ, List.range_zero]
  norm_num [cumprodGo]

theorem mk_cfg1 : mkScheduler cfg1 = Except.ok sched1 := by
  simp only [mkScheduler, cfg1, sched1, linspace, cumprod,
    List.range_succ, List.range_zero]
  norm_num [cumprodGo]

/-- C2: under the `trained` beta schedule the source sets `betas = None` and
then unconditionally evaluates `self.alphas = 1.0 - self.betas`, so
construction itself crashes with a Python `TypeError` instead of deferring to
an explicit `UnsupportedConfiguration` error when a betas-dependent
computation is invoked. -/
theorem trained_construction_type_error :
    mkScheduler cfgTrained = Except.error SchedError.TypeError ∧
      SchedError.TypeError ≠ SchedError.UnsupportedConfiguration := by
  constructor
  · rfl
  · intro h
    exact SchedError.noConfusion h

/-- C4: at `t = 0` the stochastic term is never added, so `step` with any
supplied noise equals `step` with noise absent, for every scheduler and
every pair of arrays. -/
theorem step_zero_ignores_noise (sched : DiscreteScheduler)
    (noise_prediction noisy_sample z : List ℝ) :
    step sched noise_prediction noisy_sample 0 (some z) =
      step sched noise_prediction noisy_sample 0 none := by
  simp [step]

/-- C3 counterexample: on the scheduler built from `cfgFS`
(`numTimesteps = 2`), the out-of-range timestep `t = -1` does not fail with
`IndexOutOfRange`: numpy wraps the negative index and `step` returns a
result. -/
theorem step_negative_t_not_error :
    step schedFS [0] [0] (-1) none ≠ Except.error SchedError.IndexOutOfRange := by
  norm_num [step, schedFS, pyIndex, ewise2, npClip,
    List.getD_cons_zero, List.getD_cons_succ]
  exact fun h => Except.noConfusion h

theorem step_eq_run (sched : DiscreteScheduler) (p s : List ℝ) (t : Int)
    (noise : Option (List ℝ))
    (hA : sched.betas.length = sched.alphas.length)
    (hC : sched.alphas_cumprod.length = sched.alphas.length)
    (hV : sched.variance.length = sched.alphas.length)
    (hlo : -(sched.alphas.length : Int) ≤ t) (hhi : t < (sched.alphas.length : Int))
    (hps : p.length = s.length)
    (hz : ∀ z, noise = some z → 0 < t → z.length = s.length) :
    step sched p s t noise = Except.ok (step_run sched p s t noise) := by
  have hB1 : -(sched.betas.length : Int) ≤ t := by rw [hA]; exact hlo
  have hB2 : t < (sched.betas.length : Int) := by rw [hA]; exact hhi
  have hC1 : -(sched.alphas_cumprod.length : Int) ≤ t := by rw [hC]; exact hlo
  have hC2 : t < (sched.alphas_cumprod.length : Int) := by rw [hC]; exact hhi
  have hV1 : -(sched.variance.length : Int) ≤ t := by rw [hV]; exact hlo
  have hV2 : t < (sched.variance.length : Int) := by rw [hV]; exact hhi
  rcases noise with _ | z
  · by_cases ht : 0 < t
    · have h3 : -(sched.alphas_cumprod.length : Int) ≤ t - 1 := by omega
      have h4 : t - 1 < (sched.alphas_cumprod.length : Int) := by omega
      by_cases hcl : sched.clip_sample <;>
        simp only [step, step_run, ht, hcl, pyIndex_ok _ _ hlo hhi,
          pyIndex_ok _ _ hB1 hB2, pyIndex_ok _ _ hC1 hC2, pyIndex_ok _ _ h3 h4,
          except_bind_ok, ewise2_eq_zipWith, hps, List.length_zipWith,
          List.length_map, min_self, if_true, if_false, eq_self_iff_true,
          Bool.false_eq_true]
    · by_cases hcl : sched.clip_sample <;>
        simp only [step, step_run, ht, hcl, pyIndex_ok _ _ hlo hhi,
          pyIndex_ok _ _ hB1 hB2, pyIndex_ok _ _ hC1 hC2,
          except_bind_ok, ewise2_eq_zipWith, hps, List.length_zipWith,
          List.length_map, min_self, if_true, if_false, eq_self_iff_true,
          Bool.false_eq_true]
  · by_cases ht : 0 < t
    · have hzl : z.length = s.length := hz z rfl ht
      have h3 : -(sched.alphas_cumprod.length : Int) ≤ t - 1 := by omega
      have h4 : t - 1 < (sched.alphas_cumprod.length : Int) := by omega
      by_cases hcl : sched.clip_sample <;>
        simp only [step, step_run, ht, hcl, pyIndex_ok _ _ hlo hhi,
          pyIndex_ok _ _ hB1 hB2, pyIndex_ok _ _ hC1 hC2, pyIndex_ok _ _ h3 h4,
          pyIndex_ok _ _ hV1 hV2, except_bind_ok, ewise2_eq_zipWith, hps, hzl,
          List.length_zipWith, List.length_map, min_self, if_true, if_false,
          eq_self_iff_true, Bool.false_eq_true]
    · by_cases hcl : sched.clip_sample <;>
        simp only [step, step_run, ht, hcl, pyIndex_ok _ _ hlo hhi,
          pyIndex_ok _ _ hB1 hB2, pyIndex_ok _ _ hC1 hC2,
          except_bind_ok, ewise2_eq_zipWith, hps, List.length_zipWith,
          List.length_map, min_self, if_true, if_false, eq_self_iff_true,
          Bool.false_eq_true]

theorem pyGetD_natCast (l : List ℝ) (tn : Nat) : pyGetD l (tn : Int) = l.getD tn 0 := by
  have h : ¬ ((tn : Int) < 0) := by omega
  simp [pyGetD, h]

theorem pyGetD_natCast_sub_one (l : List ℝ) (tn : Nat) (h : 0 < tn) :
    pyGetD l ((tn : Int) - 1) = l.getD (tn - 1) 0 := by
  have h1 : ¬ ((tn : Int) - 1 < 0) := by omega
  have h2 : ((tn : Int) - 1).toNat = tn - 1 := by omega
  simp [pyGetD, h1, h2]

theorem step_run_eq_spec (sched : DiscreteScheduler) (p s : List ℝ) (tn : Nat)
    (noise : Option (List ℝ)) :
    step_run sched p s (tn : Int) noise = step_spec sched p s tn noise := by
  rcases noise with _ | z
  · by_cases htn : 0 < tn
    · simp only [step_run, step_spec, pyGetD_natCast, pyGetD_natCast_sub_one _ _ htn,
        htn, Int.natCast_pos, if_true, eq_self_iff_true,
        List.zipWith_map_right, List.map_zipWith, List.zipWith_map_left]
    · simp only [step_run, step_spec, pyGetD_natCast, htn, Int.natCast_pos,
        if_false, eq_self_iff_true,
        List.zipWith_map_right, List.map_zipWith, List.zipWith_map_left]
  · by_cases htn : 0 < tn
    · simp only [step_run, step_spec, pyGetD_natCast, pyGetD_natCast_sub_one _ _ htn,
        htn, Int.natCast_pos, if_true, eq_self_iff_true,
        List.zipWith_map_right, List.map_zipWith, List.zipWith_map_left]
    · simp only [step_run, step_spec, pyGetD_natCast, htn, Int.natCast_pos,
        if_false, eq_self_iff_true,
        List.zipWith_map_right, List.map_zipWith, List.zipWith_map_left]

/-- C3 amended: for a constructed scheduler, `step` fails with
`IndexOutOfRange` exactly when the timestep is outside numpy's valid window
`[-numTimesteps, numTimesteps)`; a negative timestep in
`[-numTimesteps, 0)` is silently reinterpreted by numpy index wrapping and
`step` succeeds on it (given same-shaped arrays) instead of surfacing an
error. -/
theorem step_timestep_range (cfg : ScheduleConfig) (sched : DiscreteScheduler)
    (h : mkScheduler cfg = Except.ok sched) :
    (∀ (p s : List ℝ) (t : Int) (noise : Option (List ℝ)),
        t < -(cfg.num_timesteps : Int) ∨ (cfg.num_timesteps : Int) ≤ t →
        step sched p s t noise = Except.error SchedError.IndexOutOfRange) ∧
    (∀ (p s : List ℝ) (t : Int) (noise : Option (List ℝ)),
        -(cfg.num_timesteps : Int) ≤ t → t < 0 → p.length = s.length →
        ∃ out, step sched p s t noise = Except.ok out) := by
  obtain ⟨hbl, hal, hcl2, hvl, hnl⟩ := mkScheduler_table_lengths cfg sched h
  constructor
  · intro p s t noise hrange
    have herr : pyIndex sched.alphas t = Except.error SchedError.IndexOutOfRange := by
      apply pyIndex_error
      rw [hal]
      exact hrange
    simp only [step, herr, except_bind_error]
  · intro p s t noise h0 h1 hps
    refine ⟨step_run sched p s t noise, ?_⟩
    apply step_eq_run sched p s t noise (by rw [hbl, hal]) (by rw [hcl2, hal])
      (by rw [hvl, hal]) (by rw [hal]; exact h0) (by rw [hal]; omega) hps
    intro z hzeq htpos
    omega

/-- Witness for the amended C3: on the two-timestep scheduler, `t = 2` fails
with `IndexOutOfRange` while `t = -2` produces a result. -/
theorem step_timestep_range_witness :
    step schedFS [0] [0] 2 none = Except.error SchedError.IndexOutOfRange ∧
      ∃ out, step schedFS [0] [0] (-2) none = Except.ok out :=
  And.intro
    ((step_timestep_range cfgFS schedFS mk_cfgFS).1 [0] [0] 2 none
      (Or.inr (by norm_num [cfgFS])))
    ((step_timestep_range cfgFS schedFS mk_cfgFS).2 [0] [0] (-2) none
      (by norm_num [cfgFS]) (by norm_num) rfl)

/-- C7: for every constructed scheduler, every timestep `t` in
`[0, numTimesteps)` and same-shaped arrays, `step` returns exactly the
spec's closed-form reverse update
`cleanCoeff * predClean + noisyCoeff * noisySample` (plus the stochastic
term only when `t > 0` and noise is present), with the coefficients and
`predClean` (clamped to `[-1, 1]` when `clipCleanSample` is enabled) as in
`step_spec`. -/
theorem step_matches_spec (cfg : ScheduleConfig) (sched : DiscreteScheduler)
    (h : mkScheduler cfg = Except.ok sched) (tn : Nat) (htn : tn < cfg.num_timesteps)
    (p s : List ℝ) (hps : p.length = s.length) (noise : Option (List ℝ))
    (hz : ∀ z, noise = some z → z.length = s.length) :
    step sched p s (tn : Int) noise = Except.ok (step_spec sched p s tn noise) := by
  obtain ⟨hbl, hal, hcl2, hvl, hnl⟩ := mkScheduler_table_lengths cfg sched h
  rw [step_eq_run sched p s (tn : Int) noise (by rw [hbl, hal]) (by rw [hcl2, hal])
    (by rw [hvl, hal]) (by omega) (by rw [hal]; omega) hps
    (fun z hzeq _ => hz z hzeq)]
  rw [step_run_eq_spec]

/-- Witness for C7: the two-timestep scheduler at `t = 1` with concrete
one-element arrays and supplied noise. -/
theorem step_matches_spec_witness :
    step schedFS [0] [0] 1 (some [1]) =
      Except.ok (step_spec schedFS [0] [0] 1 (some [1])) :=
  step_matches_spec cfgFS schedFS mk_cfgFS 1 (by norm_num [cfgFS]) [0] [0] rfl
    (some [1]) (by intro z hzeq; cases hzeq; rfl)

/-- C5 counterexample: with `numTimesteps = 1` (a positive integer) and
`0 < betaMin < betaMax < 1`, numpy's `linspace` returns the single sample
`[betaMin]`, so `betas[numTimesteps - 1]` is `betaMin`, not `betaMax`. -/
theorem linear_single_endpoint_fails :
    ∃ sched, mkScheduler cfg1 = Except.ok sched ∧
      sched.betas.getD (cfg1.num_timesteps - 1) 0 ≠ cfg1.beta_max := by
  refine ⟨sched1, mk_cfg1, ?_⟩
  norm_num [sched1, cfg1]

/-- C5 amended: for every linear configuration with `numTimesteps ≥ 2` and
`0 < betaMin < betaMax < 1`, the constructed betas are `numTimesteps`
samples with `betas[0] = betaMin`, `betas[numTimesteps-1] = betaMax`,
constant spacing `(betaMax - betaMin) / (numTimesteps - 1)` between
consecutive entries, and non-decreasing order. -/
theorem linear_betas_properties (cfg : ScheduleConfig) (sched : DiscreteScheduler)
    (hs : cfg.beta_schedule = BetaSchedule.linear) (hn : 2 ≤ cfg.num_timesteps)
    (hmin : 0 < cfg.beta_min) (hlt : cfg.beta_min < cfg.beta_max)
    (hmax : cfg.beta_max < 1) (h : mkScheduler cfg = Except.ok sched) :
    sched.betas.length = cfg.num_timesteps ∧
    sched.betas.getD 0 0 = cfg.beta_min ∧
    sched.betas.getD (cfg.num_timesteps - 1) 0 = cfg.beta_max ∧
    (∀ i, i + 1 < cfg.num_timesteps →
      sched.betas.getD (i + 1) 0 - sched.betas.getD i 0 =
        (cfg.beta_max - cfg.beta_min) / ((cfg.num_timesteps : ℝ) - 1)) ∧
    (∀ i j, i ≤ j → j < cfg.num_timesteps →
      sched.betas.getD i 0 ≤ sched.betas.getD j 0) := by
  obtain ⟨hbet, _, _, _, _⟩ := mkScheduler_linear cfg hs sched h
  have hnR : (2 : ℝ) ≤ (cfg.num_timesteps : ℝ) := by exact_mod_cast hn
  have hden : (0 : ℝ) < (cfg.num_timesteps : ℝ) - 1 := by linarith
  have hst : 0 ≤ (cfg.beta_max - cfg.beta_min) / ((cfg.num_timesteps : ℝ) - 1) :=
    div_nonneg (by linarith) (le_of_lt hden)
  refine ⟨?_, ?_, ?_, ?_, ?_⟩
  · rw [hbet, linspace_length]
  · rw [hbet, linspace_getD _ _ _ 0 (by omega)]
    simp
  · rw [hbet, linspace_getD _ _ _ (cfg.num_timesteps - 1) (by omega)]
    rw [Nat.cast_sub (by omega), Nat.cast_one]
    field_simp
  · intro i hi
    rw [hbet, linspace_getD _ _ _ (i + 1) hi, linspace_getD _ _ _ i (by omega)]
    push_cast
    ring
  · intro i j hij hj
    rw [hbet, linspace_getD _ _ _ i (by omega), linspace_getD _ _ _ j hj]
    have hcast : (i : ℝ) ≤ (j : ℝ) := by exact_mod_cast hij
    have := mul_le_mul_of_nonneg_right hcast hst
    linarith

/-- Witness for the amended C5 on the concrete two-timestep linear
configuration `cfgFS`. -/
theorem linear_betas_properties_witness :
    schedFS.betas.length = cfgFS.num_timesteps ∧
    schedFS.betas.getD 0 0 = cfgFS.beta_min ∧
    schedFS.betas.getD (cfgFS.num_timesteps - 1) 0 = cfgFS.beta_max ∧
    (∀ i, i + 1 < cfgFS.num_timesteps →
      schedFS.betas.getD (i + 1) 0 - schedFS.betas.getD i 0 =
        (cfgFS.beta_max - cfgFS.beta_min) / ((cfgFS.num_timesteps : ℝ) - 1)) ∧
    (∀ i j, i ≤ j → j < cfgFS.num_timesteps →
      schedFS.betas.getD i 0 ≤ schedFS.betas.getD j 0) :=
  linear_betas_properties cfgFS schedFS rfl (by norm_num [cfgFS])
    (by norm_num [cfgFS]) (by norm_num [cfgFS]) (by norm_num [cfgFS]) mk_cfgFS

theorem getD_mem_of_lt (l : List ℝ) (i : Nat) (h : i < l.length) : l.getD i 0 ∈ l := by
  rw [List.getD_eq_getElem?_getD, List.getElem?_eq_getElem h]
  exact List.getElem_mem h

theorem cumprod_getD_head (x : ℝ) (xs : List ℝ) : (cumprod (x :: xs)).getD 0 0 = x := by
  simp [cumprod, cumprodGo]

theorem cumprod_chain_lt (alphas : List ℝ) (hα : ∀ x ∈ alphas, 0 < x ∧ x < 1) :
    ∀ j i, i < j → j < alphas.length →
      (cumprod alphas).getD j 0 < (cumprod alphas).getD i 0 := by
  intro j
  induction j with
  | zero => intro i hi _; exact absurd hi (Nat.not_lt_zero i)
  | succ k ih =>
    intro i hi hk
    have hklen : k + 1 < alphas.length := hk
    have hadj : (cumprod alphas).getD (k + 1) 0 < (cumprod alphas).getD k 0 := by
      rw [cumprod_getD_succ alphas k hklen]
      have hpos : 0 < (cumprod alphas).getD k 0 :=
        cumprodGo_getD_pos alphas 1 one_pos (fun x hx => (hα x hx).1) k (by omega)
      have hlt1 : alphas.getD (k + 1) 0 < 1 :=
        (hα _ (getD_mem_of_lt alphas (k + 1) hklen)).2
      exact mul_lt_of_lt_one_right hpos hlt1
    rcases Nat.lt_succ_iff_lt_or_eq.mp hi with hi' | hi'
    · exact lt_trans hadj (ih i hi' (by omega))
    · rw [hi']
      exact hadj

/-- C6: for every constructed scheduler whose betas all lie in `(0,1)`:
`alphas[i] = 1 - betas[i]`, `alphasCumprod[0] = alphas[0]`,
`alphasCumprod[i] = alphasCumprod[i-1] * alphas[i]` for `i ≥ 1`, and
`alphasCumprod` is non-increasing and strictly decreasing. -/
theorem alphas_cumprod_invariants (cfg : ScheduleConfig) (sched : DiscreteScheduler)
    (h : mkScheduler cfg = Except.ok sched)
    (hb : ∀ b ∈ sched.betas, 0 < b ∧ b < 1) :
    (∀ i, i < sched.betas.length → sched.alphas.getD i 0 = 1 - sched.betas.getD i 0) ∧
    (0 < sched.alphas.length →
      sched.alphas_cumprod.getD 0 0 = sched.alphas.getD 0 0) ∧
    (∀ i, i + 1 < sched.alphas_cumprod.length →
      sched.alphas_cumprod.getD (i + 1) 0 =
        sched.alphas_cumprod.getD i 0 * sched.alphas.getD (i + 1) 0) ∧
    (∀ i j, i ≤ j → j < sched.alphas_cumprod.length →
      sched.alphas_cumprod.getD j 0 ≤ sched.alphas_cumprod.getD i 0) ∧
    (∀ i j, i < j → j < sched.alphas_cumprod.length →
      sched.alphas_cumprod.getD j 0 < sched.alphas_cumprod.getD i 0) := by
  obtain ⟨ha, hc⟩ := mkScheduler_alphas cfg sched h
  have hα : ∀ x ∈ sched.alphas, 0 < x ∧ x < 1 := by
    rw [ha]
    intro x hx
    rw [List.mem_map] at hx
    obtain ⟨b, hbmem, rfl⟩ := hx
    have := hb b hbmem
    constructor <;> linarith [this.1, this.2]
  refine ⟨?_, ?_, ?_, ?_, ?_⟩
  · intro i hi
    rw [ha, getD_map_lt (fun b => 1 - b) sched.betas i hi]
  · intro hpos
    cases halphas : sched.alphas with
    | nil => rw [halphas] at hpos; simp at hpos
    | cons x xs => rw [hc, halphas, cumprod_getD_head]; simp
  · intro i hi
    rw [hc] at hi ⊢
    rw [cumprod_length] at hi
    exact cumprod_getD_succ sched.alphas i hi
  · intro i j hij hj
    rcases eq_or_lt_of_le hij with rfl | hlt
    · exact le_refl _
    · rw [hc] at hj ⊢
      rw [cumprod_length] at hj
      exact le_of_lt (cumprod_chain_lt sched.alphas hα j i hlt hj)
  · intro i j hij hj
    rw [hc] at hj ⊢
    rw [cumprod_length] at hj
    exact cumprod_chain_lt sched.alphas hα j i hij hj

/-- Witness for C6 on the concrete scheduler built from `cfgFS`. -/
theorem alphas_cumprod_invariants_witness :
    (∀ i, i < schedFS.betas.length →
      schedFS.alphas.getD i 0 = 1 - schedFS.betas.getD i 0) ∧
    (0 < schedFS.alphas.length →
      schedFS.alphas_cumprod.getD 0 0 = schedFS.alphas.getD 0 0) ∧
    (∀ i, i + 1 < schedFS.alphas_cumprod.length →
      schedFS.alphas_cumprod.getD (i + 1) 0 =
        schedFS.alphas_cumprod.getD i 0 * schedFS.alphas.getD (i + 1) 0) ∧
    (∀ i j, i ≤ j → j < schedFS.alphas_cumprod.length →
      schedFS.alphas_cumprod.getD j 0 ≤ schedFS.alphas_cumprod.getD i 0) ∧
    (∀ i j, i < j → j < schedFS.alphas_cumprod.length →
      schedFS.alphas_cumprod.getD j 0 < schedFS.alphas_cumprod.getD i 0) :=
  alphas_cumprod_invariants cfgFS schedFS mk_cfgFS
    (by
      intro b hbmem
      simp [schedFS] at hbmem
      rcases hbmem with rfl | rfl <;> norm_num)

theorem getD_zipWith_lt (f : ℝ → ℝ → ℝ) (a b : List ℝ) (i : Nat)
    (ha : i < a.length) (hb : i < b.length) :
    (List.zipWith f a b).getD i 0 = f (a.getD i 0) (b.getD i 0) := by
  induction a generalizing b i with
  | nil => simp at ha
  | cons x xs ih =>
    cases b with
    | nil => simp at hb
    | cons y ys =>
      cases i with
      | zero => rfl
      | succ k =>
        have hka : k < xs.length := by simpa using ha
        have hkb : k < ys.length := by simpa using hb
        simpa [List.zipWith_cons_cons] using ih ys k hka hkb

theorem getD_drop_one (l : List ℝ) (k : Nat) :
    (l.drop 1).getD k 0 = l.getD (1 + k) 0 := by
  rw [List.getD_eq_getElem?_getD, List.getElem?_drop, List.getD_eq_getElem?_getD]

theorem mkScheduler_fixed_small (cfg : ScheduleConfig) (sched : DiscreteScheduler)
    (hvt : cfg.variance_type = VarianceType.fixedSmall)
    (h : mkScheduler cfg = Except.ok sched) :
    sched.variance = fixed_small_variance sched.betas sched.alphas_cumprod := by
  cases cfg with
  | mk n bmin bmax bs clip vt =>
    cases hvt
    cases bs <;> simp [mkScheduler] at h <;> cases h <;> simp

theorem fixed_small_variance_getD_succ (betas ac : List ℝ) (k : Nat)
    (hlen : ac.length = betas.length) (hi : k + 1 < betas.length) :
    (fixed_small_variance betas ac).getD (k + 1) 0 =
      Real.sqrt ((1 - ac.getD (k + 1) 0) / (1 - ac.getD (k + 1) 0) *
        betas.getD (k + 1) 0) := by
  have hac : k + 1 < ac.length := by omega
  have hacp : k + 1 < (1 :: ac.drop 1).length := by
    simp [List.length_drop]
    omega
  have hzip1 : k + 1 < (List.zipWith (fun p a => (1 - p) / (1 - a))
      (1 :: ac.drop 1) ac).length := by
    rw [List.length_zipWith]
    omega
  have hzip2 : k + 1 < (List.zipWith (fun q b => q * b)
      (List.zipWith (fun p a => (1 - p) / (1 - a)) (1 :: ac.drop 1) ac)
      betas).length := by
    rw [List.length_zipWith]
    omega
  unfold fixed_small_variance
  rw [getD_map_lt Real.sqrt _ _ hzip2,
    getD_zipWith_lt _ _ _ _ hzip1 hi,
    getD_zipWith_lt _ _ _ _ hacp hac,
    List.getD_cons_succ, getD_drop_one]
  have : 1 + k = k + 1 := by omega
  rw [this]

/-- C10: in the implemented `fixed_small` table the concatenation takes
`alphas_cumprod[1:]`, so for every `i ≥ 1` the prev term equals
`alphasCumprod[i]` itself, the quotient cancels, and
`variance[i] = sqrt(betas[i])` — the same entry the `fixed_large` table
`map sqrt betas` has at `i`. -/
theorem fixed_small_matches_fixed_large (cfg : ScheduleConfig)
    (sched : DiscreteScheduler)
    (hvt : cfg.variance_type = VarianceType.fixedSmall)
    (h : mkScheduler cfg = Except.ok sched)
    (hb : ∀ b ∈ sched.betas, 0 < b ∧ b < 1)
    (i : Nat) (h1 : 1 ≤ i) (hi : i < sched.num_timesteps) :
    sched.variance.getD i 0 = Real.sqrt (sched.betas.getD i 0) ∧
      sched.variance.getD i 0 = (sched.betas.map Real.sqrt).getD i 0 := by
  obtain ⟨ha, hc⟩ := mkScheduler_alphas cfg sched h
  obtain ⟨hbl, hal, hcl2, hvl, hnl⟩ := mkScheduler_table_lengths cfg sched h
  have hib : i < sched.betas.length := by omega
  have hα : ∀ x ∈ sched.alphas, 0 < x ∧ x < 1 := by
    rw [ha]
    intro x hx
    rw [List.mem_map] at hx
    obtain ⟨b, hbmem, rfl⟩ := hx
    have := hb b hbmem
    constructor <;> linarith [this.1, this.2]
  have hlt1 : sched.alphas_cumprod.getD i 0 < 1 := by
    rw [hc]
    exact cumprodGo_getD_lt_one sched.alphas 1 one_pos (le_refl 1) hα i (by omega)
  have hne : (1 : ℝ) - sched.alphas_cumprod.getD i 0 ≠ 0 := by linarith
  obtain ⟨k, rfl⟩ : ∃ k, i = k + 1 := ⟨i - 1, by omega⟩
  have hmain : sched.variance.getD (k + 1) 0 = Real.sqrt (sched.betas.getD (k + 1) 0) := by
    rw [mkScheduler_fixed_small cfg sched hvt h,
      fixed_small_variance_getD_succ sched.betas sched.alphas_cumprod k (by omega) hib,
      div_self hne, one_mul]
  refine ⟨hmain, ?_⟩
  rw [hmain, getD_map_lt Real.sqrt sched.betas _ hib]

/-- Witness for C10 on the concrete `fixed_small` scheduler from `cfgFS`,
at index `i = 1`. -/
theorem fixed_small_matches_fixed_large_witness :
    schedFS.variance.getD 1 0 = Real.sqrt (schedFS.betas.getD 1 0) ∧
      schedFS.variance.getD 1 0 = (schedFS.betas.map Real.sqrt).getD 1 0 :=
  fixed_small_matches_fixed_large cfgFS schedFS rfl mk_cfgFS
    (by
      intro b hbmem
      simp [schedFS] at hbmem
      rcases hbmem with rfl | rfl <;> norm_num)
    1 (le_refl 1) (by norm_num [schedFS])

/-- C1: evaluating the source's `fixed_small` construction at the concrete
two-timestep configuration `cfgFS`: the code stores
`variance[1] = sqrt(betas[1])` (because `alphas_cumprod_prev` is built from
`alphas_cumprod[1:]`), which differs from the claimed formula
`sqrt((1 - alphasCumprod[0]) / (1 - alphasCumprod[1]) * betas[1])`. -/
theorem fixed_small_variance_code_eval :
    mkScheduler cfgFS = Except.ok schedFS ∧
      schedFS.variance.getD 1 0 = Real.sqrt (schedFS.betas.getD 1 0) ∧
      schedFS.variance.getD 1 0 ≠
        Real.sqrt ((1 - schedFS.alphas_cumprod.getD 0 0) /
          (1 - schedFS.alphas_cumprod.getD 1 0) * schedFS.betas.getD 1 0) := by
  refine ⟨mk_cfgFS, by norm_num [schedFS], ?_⟩
  have h1 : ((1 - (3 : ℝ)/4) / (1 - 3/8) * (1/2)) = 1/5 := by norm_num
  have h2 : schedFS.variance.getD 1 0 = Real.sqrt (1/2) := by norm_num [schedFS]
  have h3 : ((1 - schedFS.alphas_cumprod.getD 0 0) /
      (1 - schedFS.alphas_cumprod.getD 1 0) * schedFS.betas.getD 1 0) = 1/5 := by
    norm_num [schedFS]
  rw [h2, h3]
  intro heq
  have hlt := Real.sqrt_lt_sqrt (by norm_num : (0:ℝ) ≤ 1/5) (by norm_num : (1:ℝ)/5 < 1/2)
  rw [heq] at hlt
  exact lt_irrefl _ hlt

theorem map2d_singletons (g f : ℝ → ℝ) (vs : List ℝ) :
    map2d g (vs.map (fun v => [f v])) = vs.map (fun v => [g (f v)]) := by
  simp [map2d, List.map_map, Function.comp]

theorem map_singletons_factor (g : ℝ → ℝ) (vs : List ℝ) :
    vs.map (fun v => [g v]) = (vs.map g).map (fun s => [s]) := by
  simp [List.map_map, Function.comp]

theorem add_noise_rows_forall2 :
    ∀ (ss1 ss2 : List ℝ) (C E : List (List ℝ)), ss1.length = ss2.length →
      List.Forall₂ (fun c e : List ℝ => c.length = e.length) C E →
      List.Forall₂ (fun a b : List ℝ => a.length = b.length)
        (List.zipWith (fun s row => row.map (fun y => s * y)) ss1 C)
        (List.zipWith (fun s row => row.map (fun y => s * y)) ss2 E) := by
  intro ss1 ss2 C E hss hrows
  induction hrows generalizing ss1 ss2 with
  | nil => simp
  | cons hab htail ih =>
    cases ss1 with
    | nil =>
      cases ss2 with
      | nil => simp
      | cons s2 s2s => simp at hss
    | cons s1 s1s =>
      cases ss2 with
      | nil => simp at hss
      | cons s2 s2s =>
        have hss' : s1s.length = s2s.length := by simpa using hss
        refine List.Forall₂.cons ?_ (ih s1s s2s hss')
        simpa using hab

theorem add_noise_fusion (sched : DiscreteScheduler) (ts : List Int) :
    ∀ (clean noise : List (List ℝ)),
      List.zipWith (List.zipWith (fun x y => x + y))
        (List.zipWith (fun s row => row.map (fun y => s * y))
          ((ts.map (fun t => sched.alphas_cumprod.getD t.toNat 0)).map Real.sqrt)
          clean)
        (List.zipWith (fun s row => row.map (fun y => s * y))
          ((ts.map (fun t => sched.alphas_cumprod.getD t.toNat 0)).map
            (fun v => Real.sqrt (1 - v)))
          noise) =
      add_noise_spec sched clean noise ts := by
  induction ts with
  | nil => intro clean noise; simp [add_noise_spec, zipWith3S]
  | cons t ts ih =>
    intro clean noise
    cases clean with
    | nil => simp [add_noise_spec, zipWith3S]
    | cons c cs =>
      cases noise with
      | nil => simp [add_noise_spec, zipWith3S]
      | cons e es =>
        simp only [add_noise_spec, zipWith3S] at ih ⊢
        simp only [List.map_cons, List.zipWith_cons_cons]
        rw [List.zipWith_map_left, List.zipWith_map_right, ih cs es]

/-- C8: for every constructed scheduler, same-shaped `cleanSamples` and
`noise`, and in-range timesteps matching the batch dimension, `add_noise`
returns, per batch element `b` with `ac = alphasCumprod[timesteps[b]]`,
`sqrt(ac) * cleanSamples[b] + sqrt(1 - ac) * noise[b]`, broadcast over the
trailing dimensions, shaped like `cleanSamples`. -/
theorem add_noise_matches_spec (cfg : ScheduleConfig) (sched : DiscreteScheduler)
    (h : mkScheduler cfg = Except.ok sched)
    (clean_samples noise : List (List ℝ)) (timesteps : List Int)
    (hts : ∀ t ∈ timesteps, 0 ≤ t ∧ t < (cfg.num_timesteps : Int))
    (hlen : timesteps.length = clean_samples.length)
    (hlen2 : clean_samples.length = noise.length)
    (hrows : List.Forall₂ (fun c e : List ℝ => c.length = e.length)
      clean_samples noise) :
    add_noise sched clean_samples noise timesteps =
      Except.ok (add_noise_spec sched clean_samples noise timesteps) := by
  obtain ⟨hbl, hal, hcl2, hvl, hnl⟩ := mkScheduler_table_lengths cfg sched h
  have hts' : ∀ t ∈ timesteps, 0 ≤ t ∧ t < (sched.alphas_cumprod.length : Int) := by
    intro t ht
    rw [hcl2]
    exact hts t ht
  have hacs_len :
      (timesteps.map (fun t => sched.alphas_cumprod.getD t.toNat 0)).length =
        timesteps.length := by
    rw [List.length_map]
  unfold add_noise
  rw [pyFancyIndex_ok _ _ hts']
  simp only [except_bind_ok]
  rw [map2d_match_shape, map2d_match_shape, map2d_singletons,
    map_singletons_factor Real.sqrt, map_singletons_factor (fun v => Real.sqrt (1 - v)),
    bop2d_col _ _ clean_samples (by rw [List.length_map, hacs_len, hlen]),
    bop2d_col _ _ noise (by rw [List.length_map, hacs_len, hlen, hlen2])]
  simp only [except_bind_ok]
  rw [bop2d_eq_zipWithE _ _ _ (by simp [hlen, hlen2]),
    zipWithE_rows _ _ _ (add_noise_rows_forall2 _ _ clean_samples noise
      (by simp) hrows)]
  rw [add_noise_fusion]

/-- Witness for C8: the concrete scheduler from `cfgFS` with a two-row
batch and in-range timesteps. -/
theorem add_noise_matches_spec_witness :
    add_noise schedFS [[1, 2], [3]] [[4, 5], [6]] [0, 1] =
      Except.ok (add_noise_spec schedFS [[1, 2], [3]] [[4, 5], [6]] [0, 1]) :=
  add_noise_matches_spec cfgFS schedFS mk_cfgFS [[1, 2], [3]] [[4, 5], [6]] [0, 1]
    (by
      intro t ht
      simp [cfgFS] at ht ⊢
      rcases ht with rfl | rfl <;> norm_num)
    rfl rfl
    (List.Forall₂.cons rfl (List.Forall₂.cons rfl List.Forall₂.nil))

theorem pyFancyIndex_ok_window (l : List ℝ) (ts : List Int)
    (h : ∀ t ∈ ts, -(l.length : Int) ≤ t ∧ t < (l.length : Int)) :
    pyFancyIndex l ts = Except.ok (ts.map (fun t => pyGetD l t)) := by
  induction ts with
  | nil => rfl
  | cons t ts ih =>
    have ht := h t (by simp)
    have htail : ∀ u ∈ ts, -(l.length : Int) ≤ u ∧ u < (l.length : Int) :=
      fun u hu => h u (by simp [hu])
    simp [pyFancyIndex, pyIndex_ok l t ht.1 ht.2, ih htail]

theorem ewise2_ok_right_singleton (f : ℝ → ℝ → ℝ) (a : List ℝ) (y : ℝ) :
    ∃ r, ewise2 f a [y] = Except.ok r := by
  by_cases h : a.length = 1
  · obtain ⟨x, rfl⟩ := List.length_eq_one.mp h
    exact ⟨[f x y], by simp [ewise2]⟩
  · have h1 : a.length ≠ ([y] : List ℝ).length := by simpa using h
    exact ⟨a.map (fun x => f x y), by simp [ewise2, h1, h]⟩

theorem zipWithE_ok_of_forall2 (f : List ℝ → List ℝ → Except SchedError (List ℝ))
    (A B : List (List ℝ))
    (h : List.Forall₂ (fun a b => ∃ r, f a b = Except.ok r) A B) :
    ∃ C, zipWithE f A B = Except.ok C := by
  induction h with
  | nil => exact ⟨[], rfl⟩
  | cons hab htail ih =>
    obtain ⟨r, hr⟩ := hab
    obtain ⟨C, hC⟩ := ih
    exact ⟨r :: C, by simp [zipWithE, hr, hC]⟩

theorem mapE_singleton (f : ℝ → ℝ → ℝ) (s : ℝ) (B : List (List ℝ)) :
    mapE (ewise2 f [s]) B = Except.ok (B.map (fun row => row.map (f s))) := by
  induction B with
  | nil => rfl
  | cons b bs ih => simp [mapE, ewise2_single, ih]

theorem bop2d_single_row (f : ℝ → ℝ → ℝ) (s : ℝ) (B : List (List ℝ)) :
    bop2d f [[s]] B = Except.ok (B.map (fun row => row.map (f s))) := by
  by_cases hb : B.length = 1
  · obtain ⟨b, rfl⟩ := List.length_eq_one.mp hb
    simp [bop2d, zipWithE, ewise2_single]
  · have h1 : ¬ ((1 : Nat) = B.length) := fun hh => hb hh.symm
    simp [bop2d, h1, mapE_singleton]

theorem bop2d_error (f : ℝ → ℝ → ℝ) (A B : List (List ℝ))
    (h1 : A.length ≠ B.length) (h2 : A.length ≠ 1) (h3 : B.length ≠ 1) :
    bop2d f A B = Except.error SchedError.InvalidArgument := by
  simp [bop2d, h1, h2, h3]

theorem forall2_len_map (φ ψ : ℝ → ℝ) (C E : List (List ℝ))
    (h : List.Forall₂ (fun c e : List ℝ => c.length = e.length) C E) :
    List.Forall₂ (fun a b : List ℝ => a.length = b.length)
      (C.map (fun row => row.map φ)) (E.map (fun row => row.map ψ)) := by
  induction h with
  | nil => simp
  | cons hab htail ih =>
    simp only [List.map_cons]
    exact List.Forall₂.cons (by simpa using hab) ih

theorem forall2_exists_ok_rows :
    ∀ (ss1 ss2 : List ℝ) (C E : List (List ℝ)), ss1.length = ss2.length →
      C.length = E.length → (∀ e ∈ E, e.length = 1) →
      List.Forall₂ (fun a b : List ℝ =>
          ∃ r, ewise2 (fun x y => x + y) a b = Except.ok r)
        (List.zipWith (fun s row => row.map (fun y => s * y)) ss1 C)
        (List.zipWith (fun s row => row.map (fun y => s * y)) ss2 E) := by
  intro ss1 ss2 C E hss hCE hek
  induction C generalizing E ss1 ss2 with
  | nil =>
    cases E with
    | nil => simp
    | cons e es => simp at hCE
  | cons c cs ih =>
    cases E with
    | nil => simp at hCE
    | cons e es =>
      cases ss1 with
      | nil =>
        cases ss2 with
        | nil => simp
        | cons s2 s2s => simp at hss
      | cons s1 s1s =>
        cases ss2 with
        | nil => simp at hss
        | cons s2 s2s =>
          obtain ⟨y, rfl⟩ := List.length_eq_one.mp (hek e (by simp))
          refine List.Forall₂.cons ?_
            (ih s1s s2s es (by simpa using hss) (by simpa using hCE)
              (fun u hu => hek u (by simp [hu])))
          simpa using ewise2_ok_right_singleton (fun x y => x + y)
            (c.map (fun v => s1 * v)) (s2 * y)

theorem add_noise_ok_of_window (sched : DiscreteScheduler)
    (clean_samples noise : List (List ℝ)) (ts : List Int)
    (hts : ∀ t ∈ ts, -(sched.alphas_cumprod.length : Int) ≤ t ∧
      t < (sched.alphas_cumprod.length : Int))
    (hlen : ts.length = clean_samples.length)
    (hlen2 : clean_samples.length = noise.length)
    (hrows : List.Forall₂ (fun c e : List ℝ => c.length = e.length)
      clean_samples noise) :
    ∃ out, add_noise sched clean_samples noise ts = Except.ok out := by
  unfold add_noise
  rw [pyFancyIndex_ok_window _ _ hts]
  simp only [except_bind_ok]
  rw [map2d_match_shape, map2d_match_shape, map2d_singletons,
    map_singletons_factor Real.sqrt, map_singletons_factor (fun v => Real.sqrt (1 - v)),
    bop2d_col _ _ clean_samples (by simp [hlen]),
    bop2d_col _ _ noise (by simp [hlen, hlen2])]
  simp only [except_bind_ok]
  rw [bop2d_eq_zipWithE _ _ _ (by simp [hlen, hlen2]),
    zipWithE_rows _ _ _ (add_noise_rows_forall2 _ _ clean_samples noise
      (by simp) hrows)]
  exact ⟨_, rfl⟩

theorem add_noise_ok_noise_singleton_rows (sched : DiscreteScheduler)
    (clean_samples noise : List (List ℝ)) (ts : List Int)
    (hts : ∀ t ∈ ts, -(sched.alphas_cumprod.length : Int) ≤ t ∧
      t < (sched.alphas_cumprod.length : Int))
    (hlen : ts.length = clean_samples.length)
    (hlen2 : clean_samples.length = noise.length)
    (hek : ∀ e ∈ noise, e.length = 1) :
    ∃ out, add_noise sched clean_samples noise ts = Except.ok out := by
  unfold add_noise
  rw [pyFancyIndex_ok_window _ _ hts]
  simp only [except_bind_ok]
  rw [map2d_match_shape, map2d_match_shape, map2d_singletons,
    map_singletons_factor Real.sqrt, map_singletons_factor (fun v => Real.sqrt (1 - v)),
    bop2d_col _ _ clean_samples (by simp [hlen]),
    bop2d_col _ _ noise (by simp [hlen, hlen2])]
  simp only [except_bind_ok]
  rw [bop2d_eq_zipWithE _ _ _ (by simp [hlen, hlen2])]
  exact zipWithE_ok_of_forall2 _ _ _
    (forall2_exists_ok_rows _ _ clean_samples noise (by simp)
      (by rw [hlen2]) hek)

theorem add_noise_ok_single_timestep (sched : DiscreteScheduler)
    (clean_samples noise : List (List ℝ)) (t : Int)
    (h0 : -(sched.alphas_cumprod.length : Int) ≤ t)
    (h1 : t < (sched.alphas_cumprod.length : Int))
    (hlen2 : clean_samples.length = noise.length)
    (hrows : List.Forall₂ (fun c e : List ℝ => c.length = e.length)
      clean_samples noise) :
    ∃ out, add_noise sched clean_samples noise [t] = Except.ok out := by
  have hpy : pyFancyIndex sched.alphas_cumprod [t] =
      Except.ok [pyGetD sched.alphas_cumprod t] := by
    simp [pyFancyIndex, pyIndex_ok _ _ h0 h1]
  unfold add_noise
  rw [hpy]
  simp only [except_bind_ok]
  rw [map2d_match_shape, map2d_match_shape, map2d_singletons]
  simp only [List.map_cons, List.map_nil]
  rw [bop2d_single_row, bop2d_single_row]
  simp only [except_bind_ok]
  rw [bop2d_eq_zipWithE _ _ _ (by simp [hlen2])]
  exact zipWithE_ok_of_forall2 _ _ _
    (List.Forall₂.imp
      (fun a b hab => ⟨_, ewise2_eq_zipWith _ a b hab⟩)
      (forall2_len_map _ _ clean_samples noise hrows))

theorem pyFancyIndex_error (l : List ℝ) (ts : List Int)
    (h : ∃ t ∈ ts, t < -(l.length : Int) ∨ (l.length : Int) ≤ t) :
    pyFancyIndex l ts = Except.error SchedError.IndexOutOfRange := by
  induction ts with
  | nil => simp at h
  | cons t ts ih =>
    by_cases hbad : t < -(l.length : Int) ∨ (l.length : Int) ≤ t
    · simp [pyFancyIndex, pyIndex_error l t hbad]
    · push_neg at hbad
      have hok := pyIndex_ok l t hbad.1 hbad.2
      rcases h with ⟨u, hu, hrange⟩
      rcases List.mem_cons.mp hu with rfl | hmem
      · exact absurd hrange (by push_neg; exact hbad)
      · simp [pyFancyIndex, hok, ih ⟨u, hmem, hrange⟩]

/-- C9 counterexample: on the scheduler built from `cfgFS`
(`numTimesteps = 2`), every clause of the claim fails at an explicit input:
the out-of-range timestep `2` fails with `IndexOutOfRange` (numpy
`IndexError`), not `InvalidArgument`; the timestep `-1`, also outside
`[0, numTimesteps)`, does not fail at all (numpy wraps it); the row-shape
mismatch `(1,2)` versus `(1,1)` is broadcast and succeeds instead of
failing; and `len(timesteps) = 1` against a batch of `2` is broadcast and
succeeds instead of failing. -/
theorem add_noise_out_of_range_not_invalid :
    add_noise schedFS [[1]] [[1]] [2] = Except.error SchedError.IndexOutOfRange ∧
    add_noise schedFS [[1]] [[1]] [2] ≠ Except.error SchedError.InvalidArgument ∧
    (∃ out, add_noise schedFS [[1]] [[1]] [-1] = Except.ok out) ∧
    (∃ out, add_noise schedFS [[1, 2]] [[3]] [0] = Except.ok out) ∧
    (∃ out, add_noise schedFS [[1], [2]] [[3], [4]] [0] = Except.ok out) := by
  have h : add_noise schedFS [[1]] [[1]] [2] =
      Except.error SchedError.IndexOutOfRange := by
    have hbad : (2 : Int) < -((schedFS.alphas_cumprod.length : Nat) : Int) ∨
        ((schedFS.alphas_cumprod.length : Nat) : Int) ≤ 2 := by
      norm_num [schedFS]
    simp [add_noise, pyFancyIndex_error schedFS.alphas_cumprod [2] ⟨2, by simp, hbad⟩]
  refine ⟨h, ?_, ?_, ?_, ?_⟩
  · rw [h]
    intro heq
    exact SchedError.noConfusion (Except.error.inj heq)
  · exact add_noise_ok_of_window schedFS [[1]] [[1]] [-1]
      (by intro t ht; simp at ht; subst ht; norm_num [schedFS]) rfl rfl
      (List.Forall₂.cons rfl List.Forall₂.nil)
  · exact add_noise_ok_noise_singleton_rows schedFS [[1, 2]] [[3]] [0]
      (by intro t ht; simp at ht; subst ht; norm_num [schedFS]) rfl rfl
      (by intro e he; simp at he; subst he; rfl)
  · exact add_noise_ok_single_timestep schedFS [[1], [2]] [[3], [4]] 0
      (by norm_num [schedFS]) (by norm_num [schedFS]) rfl
      (List.Forall₂.cons rfl (List.Forall₂.cons rfl List.Forall₂.nil))

/-- C9 amended: for a constructed scheduler, a timestep outside numpy's
index window `[-numTimesteps, numTimesteps)` makes `add_noise` fail with
`IndexOutOfRange` (the numpy `IndexError`), never `InvalidArgument`;
timesteps inside the window — including negative ones, which lie outside
`[0, numTimesteps)` but are silently wrapped — succeed on matching shapes.
With in-window timesteps, a row-length mismatch `k ≠ k'` between
`cleanSamples` and `noise` with `k ≠ 1` and `k' ≠ 1` fails with
`InvalidArgument` (numpy `ValueError`), while length-one noise rows are
broadcast and succeed; a `len(timesteps)` incompatible with the batch
dimension (different, with neither equal to one) fails with
`InvalidArgument`, while `len(timesteps) = 1` is broadcast over any batch
and succeeds. -/
theorem add_noise_failure_modes (cfg : ScheduleConfig) (sched : DiscreteScheduler)
    (h : mkScheduler cfg = Except.ok sched) :
    (∀ (clean_samples noise : List (List ℝ)) (ts : List Int),
      (∃ t ∈ ts, t < -(cfg.num_timesteps : Int) ∨ (cfg.num_timesteps : Int) ≤ t) →
      add_noise sched clean_samples noise ts =
        Except.error SchedError.IndexOutOfRange) ∧
    (∀ (clean_samples noise : List (List ℝ)) (ts : List Int),
      (∀ t ∈ ts, -(cfg.num_timesteps : Int) ≤ t ∧ t < (cfg.num_timesteps : Int)) →
      ts.length = clean_samples.length → clean_samples.length = noise.length →
      List.Forall₂ (fun c e : List ℝ => c.length = e.length) clean_samples noise →
      ∃ out, add_noise sched clean_samples noise ts = Except.ok out) ∧
    (∀ (clean_samples noise : List (List ℝ)) (ts : List Int) (k k' : Nat),
      (∀ t ∈ ts, -(cfg.num_timesteps : Int) ≤ t ∧ t < (cfg.num_timesteps : Int)) →
      ts.length = clean_samples.length → clean_samples.length = noise.length →
      0 < clean_samples.length →
      (∀ c ∈ clean_samples, c.length = k) → (∀ e ∈ noise, e.length = k') →
      k ≠ k' → k ≠ 1 → k' ≠ 1 →
      add_noise sched clean_samples noise ts =
        Except.error SchedError.InvalidArgument) ∧
    (∀ (clean_samples noise : List (List ℝ)) (ts : List Int),
      (∀ t ∈ ts, -(cfg.num_timesteps : Int) ≤ t ∧ t < (cfg.num_timesteps : Int)) →
      ts.length = clean_samples.length → clean_samples.length = noise.length →
      (∀ e ∈ noise, e.length = 1) →
      ∃ out, add_noise sched clean_samples noise ts = Except.ok out) ∧
    (∀ (clean_samples noise : List (List ℝ)) (ts : List Int),
      (∀ t ∈ ts, -(cfg.num_timesteps : Int) ≤ t ∧ t < (cfg.num_timesteps : Int)) →
      ts.length ≠ clean_samples.length → ts.length ≠ 1 →
      clean_samples.length ≠ 1 →
      add_noise sched clean_samples noise ts =
        Except.error SchedError.InvalidArgument) ∧
    (∀ (clean_samples noise : List (List ℝ)) (t : Int),
      -(cfg.num_timesteps : Int) ≤ t → t < (cfg.num_timesteps : Int) →
      clean_samples.length = noise.length →
      List.Forall₂ (fun c e : List ℝ => c.length = e.length) clean_samples noise →
      ∃ out, add_noise sched clean_samples noise [t] = Except.ok out) := by
  obtain ⟨hbl, hal, hcl2, hvl, hnl⟩ := mkScheduler_table_lengths cfg sched h
  have hwin : ∀ (ts : List Int),
      (∀ t ∈ ts, -(cfg.num_timesteps : Int) ≤ t ∧ t < (cfg.num_timesteps : Int)) →
      ∀ t ∈ ts, -(sched.alphas_cumprod.length : Int) ≤ t ∧
        t < (sched.alphas_cumprod.length : Int) := by
    intro ts hts t ht
    rw [hcl2]
    exact hts t ht
  refine ⟨?_, ?_, ?_, ?_, ?_, ?_⟩
  · intro clean_samples noise ts hbad
    rcases hbad with ⟨u, hu, hrange⟩
    have hrange' : u < -(sched.alphas_cumprod.length : Int) ∨
        (sched.alphas_cumprod.length : Int) ≤ u := by
      rw [hcl2]
      exact hrange
    simp [add_noise, pyFancyIndex_error sched.alphas_cumprod ts ⟨u, hu, hrange'⟩]
  · intro clean_samples noise ts hts hlen hlen2 hrows
    exact add_noise_ok_of_window sched clean_samples noise ts (hwin ts hts)
      hlen hlen2 hrows
  · intro clean_samples noise ts k k' hts hlen hlen2 hpos hck hek hkk hk1 hk1'
    have hts' := hwin ts hts
    unfold add_noise
    rw [pyFancyIndex_ok_window _ _ hts']
    simp only [except_bind_ok]
    rw [map2d_match_shape, map2d_match_shape, map2d_singletons,
      map_singletons_factor Real.sqrt,
      map_singletons_factor (fun v => Real.sqrt (1 - v)),
      bop2d_col _ _ clean_samples (by simp [hlen]),
      bop2d_col _ _ noise (by simp [hlen, hlen2])]
    simp only [except_bind_ok]
    rw [bop2d_eq_zipWithE _ _ _ (by simp [hlen, hlen2])]
    cases ts with
    | nil =>
      rw [List.length_nil] at hlen
      omega
    | cons t ts' =>
      cases clean_samples with
      | nil => simp at hpos
      | cons c cs =>
        cases noise with
        | nil => simp at hlen2
        | cons e es =>
          have hc : c.length = k := hck c (by simp)
          have he : e.length = k' := hek e (by simp)
          have herr : ewise2 (fun x y => x + y)
              (c.map (fun y => Real.sqrt (pyGetD sched.alphas_cumprod t) * y))
              (e.map (fun y =>
                Real.sqrt (1 - pyGetD sched.alphas_cumprod t) * y)) =
              Except.error SchedError.InvalidArgument := by
            apply ewise2_error
            · simpa [hc, he] using hkk
            · simpa [hc] using hk1
            · simpa [he] using hk1'
          simp [zipWithE, herr]
  · intro clean_samples noise ts hts hlen hlen2 hek
    exact add_noise_ok_noise_singleton_rows sched clean_samples noise ts
      (hwin ts hts) hlen hlen2 hek
  · intro clean_samples noise ts hts hm hm1 hb1
    have hts' := hwin ts hts
    unfold add_noise
    rw [pyFancyIndex_ok_window _ _ hts']
    simp only [except_bind_ok]
    rw [map2d_match_shape, map_singletons_factor Real.sqrt,
      bop2d_error _ _ _ (by simp [hm]) (by simp [hm1]) hb1]
    simp only [except_bind_error]
  · intro clean_samples noise t h0 h1 hlen2 hrows
    exact add_noise_ok_single_timestep sched clean_samples noise t
      (by rw [hcl2]; exact h0) (by rw [hcl2]; exact h1) hlen2 hrows

/-- Witness for the amended C9 on the scheduler built from `cfgFS`: an
out-of-window timestep fails with `IndexOutOfRange`; a wrapped negative
timestep succeeds; a `2`-column versus `3`-column row mismatch fails with
`InvalidArgument`; length-one noise rows broadcast and succeed; two
timesteps against a batch of three fail with `InvalidArgument`; one
timestep against a batch of two broadcasts and succeeds. -/
theorem add_noise_failure_modes_witness :
    add_noise schedFS [[1]] [[1]] [5] = Except.error SchedError.IndexOutOfRange ∧
    (∃ out, add_noise schedFS [[2]] [[3]] [-2] = Except.ok out) ∧
    add_noise schedFS [[1, 2], [3, 4]] [[5, 6, 7], [8, 9, 10]] [0, 1] =
      Except.error SchedError.InvalidArgument ∧
    (∃ out, add_noise schedFS [[1, 2], [3, 4]] [[5], [6]] [0, 1] = Except.ok out) ∧
    add_noise schedFS [[1], [2], [3]] [[4], [5], [6]] [0, 1] =
      Except.error SchedError.InvalidArgument ∧
    (∃ out, add_noise schedFS [[7], [8]] [[9], [10]] [1] = Except.ok out) :=
  And.intro
    ((add_noise_failure_modes cfgFS schedFS mk_cfgFS).1 [[1]] [[1]] [5]
      ⟨5, by simp, by norm_num [cfgFS]⟩)
    (And.intro
      ((add_noise_failure_modes cfgFS schedFS mk_cfgFS).2.1 [[2]] [[3]] [-2]
        (by intro t ht; simp at ht; subst ht; norm_num [cfgFS]) rfl rfl
        (List.Forall₂.cons rfl List.Forall₂.nil))
      (And.intro
        ((add_noise_failure_modes cfgFS schedFS mk_cfgFS).2.2.1
          [[1, 2], [3, 4]] [[5, 6, 7], [8, 9, 10]] [0, 1] 2 3
          (by
            intro t ht
            simp [cfgFS] at ht ⊢
            rcases ht with rfl | rfl <;> norm_num)
          rfl rfl (by norm_num)
          (by
            intro c hc
            simp at hc
            rcases hc with rfl | rfl <;> rfl)
          (by
            intro e he
            simp at he
            rcases he with rfl | rfl <;> rfl)
          (by norm_num) (by norm_num) (by norm_num))
        (And.intro
          ((add_noise_failure_modes cfgFS schedFS mk_cfgFS).2.2.2.1
            [[1, 2], [3, 4]] [[5], [6]] [0, 1]
            (by
              intro t ht
              simp [cfgFS] at ht ⊢
              rcases ht with rfl | rfl <;> norm_num)
            rfl rfl
            (by
              intro e he
              simp at he
              rcases he with rfl | rfl <;> rfl))
          (And.intro
            ((add_noise_failure_modes cfgFS schedFS mk_cfgFS).2.2.2.2.1
              [[1], [2], [3]] [[4], [5], [6]] [0, 1]
              (by
                intro t ht
                simp [cfgFS] at ht ⊢
                rcases ht with rfl | rfl <;> norm_num)
              (by norm_num) (by norm_num) (by norm_num))
            ((add_noise_failure_modes cfgFS schedFS mk_cfgFS).2.2.2.2.2
              [[7], [8]] [[9], [10]] 1
              (by norm_num [cfgFS]) (by norm_num [cfgFS]) rfl
              (List.Forall₂.cons rfl
                (List.Forall₂.cons rfl List.Forall₂.nil)))))))

end DiffusersSched
